import Mathlib

/-!
Verification of the django-annoying field extensions (src/annoying/fields.py).

The file shallowly embeds the two components of the repository:

* the JSON-backed text field (class JSONField): its default serializer
  (json.dumps with cls=DjangoJSONEncoder, sort_keys=True, indent=2,
  separators=(',', ': ')), its default deserializer (json.loads), and the
  field's conversion hooks to_python, get_prep_value, from_db_value,
  get_default, get_db_prep_save and value_from_object;

* the auto-creating one-to-one accessor
  (class AutoSingleRelatedObjectDescriptor): its exception-aware read path
  over an explicit store/cache state, and a two-thread interleaving model of
  the create-if-absent race.

Python strings are modelled as lists of Unicode code points, bytes as lists
of byte values, and machine-level concerns (database connections, the actual
SQL) are abstracted into explicit state.  External collaborators (the base
TextField conversions, bytes.decode) enter as function parameters, so the
theorems quantify over them.
-/

namespace Annoying

/-! ## Definitions: the shallow embedding of src/annoying/fields.py -/

/-- A Python string, modelled as its list of Unicode code points. -/
abbrev PyStr := List Nat

/-- A Unicode scalar value: a code point that is not a UTF-16 surrogate.
Well-formed Python text (the supported string values) consists of scalar
values below 0x110000. -/
def IsScalar (c : Nat) : Prop := c < 55296 ∨ (57344 ≤ c ∧ c < 1114112)

instance (c : Nat) : Decidable (IsScalar c) := by
  unfold IsScalar; infer_instance

/-- One lowercase hexadecimal digit, as the json encoder renders them. -/
def hexDig (d : Nat) : Nat := if d < 10 then 48 + d else 87 + d

/-- The four-digit lowercase hex rendering of a code unit below 0x10000. -/
def hex4 (n : Nat) : List Nat :=
  [hexDig (n / 4096 % 16), hexDig (n / 256 % 16), hexDig (n / 16 % 16),
   hexDig (n % 16)]

/-- A backslash-u escape sequence (code 92 is the backslash, 117 is u). -/
def uEscape (n : Nat) : List Nat := 92 :: 117 :: hex4 n

/-- Model of json.encoder's ASCII escaping of a single code point
(ensure_ascii=True, the default used by JSONField's dumps): the named
escapes from ESCAPE_DCT, backslash-u escapes for other control and
non-ASCII characters, and surrogate pairs above 0xFFFF. -/
def escapeChar (c : Nat) : List Nat :=
  if c = 34 then [92, 34]
  else if c = 92 then [92, 92]
  else if c = 8 then [92, 98]
  else if c = 12 then [92, 102]
  else if c = 10 then [92, 110]
  else if c = 13 then [92, 114]
  else if c = 9 then [92, 116]
  else if c < 32 then uEscape c
  else if c ≤ 126 then [c]
  else if c < 65536 then uEscape c
  else uEscape (55296 + (c - 65536) / 1024) ++ uEscape (56320 + (c - 65536) % 1024)

/-- ASCII escaping of a whole string. -/
def escapeStr : PyStr → List Nat
  | [] => []
  | c :: s => escapeChar c ++ escapeStr s

/-- A JSON string literal: quote, escaped body, quote (code 34). -/
def encodeString (s : PyStr) : List Nat := 34 :: (escapeStr s ++ [34])

/-- Decimal digits of a nonnegative integer, most significant first.  The
fuel only bounds the recursion depth; any fuel above the number of digits
(natDigits supplies n + 1) gives the same result. -/
def natDigitsAux : Nat → Nat → List Nat
  | 0, n => [48 + n]
  | fuel + 1, n => if n < 10 then [48 + n] else natDigitsAux fuel (n / 10) ++ [48 + n % 10]

/-- Decimal digits of a nonnegative integer (model of Python int repr). -/
def natDigits (n : Nat) : List Nat := natDigitsAux (n + 1) n

/-- Python repr of an int (code 45 is the minus sign). -/
def intRepr (n : Int) : List Nat :=
  if n < 0 then 45 :: natDigits (-n).toNat else natDigits n.toNat

/-- A JSON primitive as Python holds it: None, bool, int or str.
(Floats are outside the modelled domain.) -/
inductive Prim where
  | pnull
  | pbool (b : Bool)
  | pint (n : Int)
  | pstr (s : PyStr)
deriving DecidableEq

/-- Encoding of a primitive, as json.dumps renders it. -/
def encodePrim : Prim → List Nat
  | .pnull => [110, 117, 108, 108]
  | .pbool true => [116, 114, 117, 101]
  | .pbool false => [102, 97, 108, 115, 101]
  | .pint n => intRepr n
  | .pstr s => encodeString s

/-- The supported top-level value shapes of the roundtrip claim: a dict of
JSON primitives keyed by strings, or a list of JSON primitives. -/
inductive Top where
  | tdict (kvs : List (PyStr × Prim))
  | tlist (xs : List Prim)
deriving DecidableEq

/-- Lexicographic comparison of code-point lists, as Python compares
strings (used by sorted() on dict items under sort_keys=True). -/
def lexLe : List Nat → List Nat → Bool
  | [], _ => true
  | _ :: _, [] => false
  | a :: s1, b :: s2 => if a < b then true else if b < a then false else lexLe s1 s2

/-- Insert a key/value pair into an already key-sorted list of pairs,
before the first pair whose key is not smaller. -/
def insertByKey (kv : PyStr × Prim) : List (PyStr × Prim) → List (PyStr × Prim)
  | [] => [kv]
  | kv2 :: rest =>
    if lexLe kv.1 kv2.1 then kv :: kv2 :: rest else kv2 :: insertByKey kv rest

/-- sorted(dct.items()): a stable sort of the key/value pairs by key
(insertion sort; the keys of a Python dict are pairwise distinct, so any
stable sort models sorted()). -/
def sortItems : List (PyStr × Prim) → List (PyStr × Prim)
  | [] => []
  | kv :: rest => insertByKey kv (sortItems rest)

/-- One dict member at indent level 1: two spaces, the key string literal,
a colon and a space (codes 58 32, the key_separator ': '), the value. -/
def encodeKV (kv : PyStr × Prim) : List Nat :=
  32 :: 32 :: (encodeString kv.1 ++ (58 :: 32 :: encodePrim kv.2))

/-- Remaining dict members, each preceded by the item_separator ',' and the
newline that indent=2 inserts (codes 44 10). -/
def encodeMoreKVs : List (PyStr × Prim) → List Nat
  | [] => []
  | kv :: rest => 44 :: 10 :: (encodeKV kv ++ encodeMoreKVs rest)

/-- One list element at indent level 1. -/
def encodeItem (v : Prim) : List Nat := 32 :: 32 :: encodePrim v

/-- Remaining list elements, separated like dict members. -/
def encodeMoreItems : List Prim → List Nat
  | [] => []
  | v :: rest => 44 :: 10 :: (encodeItem v ++ encodeMoreItems rest)

/-- Model of JSONField's default serializer, the dumps closure built in
JSONField.`__init__`: json.dumps(value, cls=DjangoJSONEncoder,
sort_keys=True, indent=2, separators=(',', ': ')), on the supported
shapes.  Braces are codes 123/125, brackets 91/93, newline 10. -/
def dumps : Top → List Nat
  | .tdict [] => [123, 125]
  | .tdict kvs =>
    match sortItems kvs with
    | [] => [123, 125]
    | kv :: rest => 123 :: 10 :: (encodeKV kv ++ encodeMoreKVs rest ++ [10, 125])
  | .tlist [] => [91, 93]
  | .tlist (v :: rest) => 91 :: 10 :: (encodeItem v ++ encodeMoreItems rest ++ [10, 93])

/-- JSON whitespace: space, tab, linefeed, carriage return. -/
def isWs (c : Nat) : Bool := c = 32 || c = 9 || c = 10 || c = 13

/-- Skip leading JSON whitespace. -/
def skipWs : List Nat → List Nat
  | [] => []
  | c :: rest => if isWs c then skipWs rest else c :: rest

/-- Value of one hex digit, case-insensitive, as int(esc, 16) accepts per
digit. -/
def hexVal (c : Nat) : Option Nat :=
  if 48 ≤ c ∧ c ≤ 57 then some (c - 48)
  else if 97 ≤ c ∧ c ≤ 102 then some (c - 87)
  else if 65 ≤ c ∧ c ≤ 70 then some (c - 55)
  else none

/-- Read four hex digits, as json.decoder's _decode_uXXXX does (it
rejects anything but four hex characters). -/
def parseHex4 : List Nat → Option (Nat × List Nat)
  | h1 :: h2 :: h3 :: h4 :: rest =>
    match hexVal h1, hexVal h2, hexVal h3, hexVal h4 with
    | some d1, some d2, some d3, some d4 =>
      some (4096 * d1 + 256 * d2 + 16 * d3 + d4, rest)
    | _, _, _, _ => none
  | _ => none

/-- Decode a backslash-u escape, entered after the backslash-u prefix: a
code unit, combined with a following backslash-u low surrogate when it is
a high surrogate (0xD800 at 55296, 0xDBFF at 56319, 0xDC00 at 56320,
0xDFFF at 57343), exactly as json.decoder's scanstring combines pairs. -/
def parseUEscape (l : List Nat) : Option (Nat × List Nat) :=
  match parseHex4 l with
  | none => none
  | some (n, rest3) =>
    if 55296 ≤ n ∧ n ≤ 56319 then
      match rest3 with
      | 92 :: 117 :: tail3 =>
        match parseHex4 tail3 with
        | some (m, rest4) =>
          if 56320 ≤ m ∧ m ≤ 57343 then
            some (65536 + 1024 * (n - 55296) + (m - 56320), rest4)
          else some (n, rest3)
        | none => none
      | _ => some (n, rest3)
    else some (n, rest3)

/-- Decode one escape sequence, entered after the backslash: the named
escapes of json.decoder's BACKSLASH table (quote, backslash, slash,
b, f, n, r, t) or a backslash-u escape; anything else is an error. -/
def parseEscape : List Nat → Option (Nat × List Nat)
  | [] => none
  | e :: rest2 =>
    if e = 34 then some (34, rest2)
    else if e = 92 then some (92, rest2)
    else if e = 47 then some (47, rest2)
    else if e = 98 then some (8, rest2)
    else if e = 102 then some (12, rest2)
    else if e = 110 then some (10, rest2)
    else if e = 114 then some (13, rest2)
    else if e = 116 then some (9, rest2)
    else if e = 117 then parseUEscape rest2
    else none

/-- Model of json.decoder's scanstring (strict mode), entered just after
the opening quote: literal characters up to the closing quote (34),
escape sequences after a backslash (92), and an error on raw control
characters or malformed escapes.  Returns the decoded code points and the
unconsumed suffix.  The fuel argument only bounds the loop; every
iteration consumes at least one input character, so a fuel larger than
the input length (as loads supplies) never runs out. -/
def parseStringBody : Nat → List Nat → Option (PyStr × List Nat)
  | 0, _ => none
  | _, [] => none
  | fuel + 1, c :: rest =>
    if c = 34 then some ([], rest)
    else if c = 92 then
      match parseEscape rest with
      | some (ch, r) => (parseStringBody fuel r).map (fun p => (ch :: p.1, p.2))
      | none => none
    else if c < 32 then none
    else (parseStringBody fuel rest).map (fun p => (c :: p.1, p.2))

/-- Accumulate decimal digits, stopping at the first non-digit. -/
def digitsLoop (acc : Nat) : List Nat → Nat × List Nat
  | [] => (acc, [])
  | c :: rest =>
    if 48 ≤ c ∧ c ≤ 57 then digitsLoop (acc * 10 + (c - 48)) rest else (acc, c :: rest)

/-- Parse the unsigned part of a JSON number per the scanner's regex
(-?(?:0|[1-9]d*))(.d+)?([eE][-+]?d+)?: a bare 0 (code 48), or a nonzero
digit (49-57) followed by digits.  A following dot (46), e (101) or
E (69) would make Python produce a float; floats are outside the modelled
domain, so the model decoder fails there instead. -/
def parseUNumber : List Nat → Option (Nat × List Nat)
  | [] => none
  | c :: rest =>
    if c = 48 then
      match rest with
      | d :: _ =>
        if (48 ≤ d ∧ d ≤ 57) ∨ d = 46 ∨ d = 101 ∨ d = 69 then none else some (0, rest)
      | [] => some (0, [])
    else if 49 ≤ c ∧ c ≤ 57 then
      match digitsLoop (c - 48) rest with
      | (n, d :: r) => if d = 46 ∨ d = 101 ∨ d = 69 then none else some (n, d :: r)
      | (n, []) => some (n, [])
    else none

/-- Parse a JSON int, optional minus sign (code 45) first. -/
def parseNumber : List Nat → Option (Int × List Nat)
  | [] => none
  | c :: rest =>
    if c = 45 then (parseUNumber rest).map (fun p => (-(p.1 : Int), p.2))
    else (parseUNumber (c :: rest)).map (fun p => ((p.1 : Int), p.2))

/-- Parse one JSON primitive, dispatching on the first character as
json.scanner does: a string literal after a quote (34), the constants
null / true / false after n (110) / t (116) / f (102), or a number. -/
def parsePrim (fuel : Nat) (l : List Nat) : Option (Prim × List Nat) :=
  match l with
  | [] => none
  | c :: rest =>
    if c = 34 then (parseStringBody fuel rest).map (fun p => (.pstr p.1, p.2))
    else if c = 110 then
      match rest with
      | 117 :: 108 :: 108 :: r => some (.pnull, r)
      | _ => none
    else if c = 116 then
      match rest with
      | 114 :: 117 :: 101 :: r => some (.pbool true, r)
      | _ => none
    else if c = 102 then
      match rest with
      | 97 :: 108 :: 115 :: 101 :: r => some (.pbool false, r)
      | _ => none
    else (parseNumber (c :: rest)).map (fun p => (.pint p.1, p.2))

/-- A decoded JSON value within the modelled grammar: a primitive, a dict
of primitives, or a list of primitives (mirroring the supported shapes). -/
inductive JVal where
  | jprim (p : Prim)
  | jdict (kvs : List (PyStr × Prim))
  | jlist (xs : List Prim)
deriving DecidableEq

/-- Model of the JSONObject loop of json.decoder, entered at the opening
quote of the first key (the empty-object case is handled by the caller):
key string, colon (58), value, then a comma (44) to continue or a closing
brace (125) to finish.  Fuel bounds the number of members; each member
consumes several input characters, so the fuel loads supplies never runs
out. -/
def parseMembers : Nat → List Nat → Option (List (PyStr × Prim) × List Nat)
  | 0, _ => none
  | fuel + 1, l =>
    match l with
    | 34 :: rest =>
      match parseStringBody (fuel + 1) rest with
      | none => none
      | some (k, r1) =>
        match skipWs r1 with
        | 58 :: r2 =>
          match parsePrim (fuel + 1) (skipWs r2) with
          | none => none
          | some (v, r3) =>
            match skipWs r3 with
            | 44 :: r4 => (parseMembers fuel (skipWs r4)).map (fun p => ((k, v) :: p.1, p.2))
            | 125 :: r4 => some ([(k, v)], r4)
            | _ => none
        | _ => none
    | _ => none

/-- Model of the JSONArray loop of json.decoder, entered at the first
element (the empty-array case is handled by the caller): value, then a
comma (44) to continue or a closing bracket (93) to finish. -/
def parseElements : Nat → List Nat → Option (List Prim × List Nat)
  | 0, _ => none
  | fuel + 1, l =>
    match parsePrim (fuel + 1) l with
    | none => none
    | some (v, r1) =>
      match skipWs r1 with
      | 44 :: r2 => (parseElements fuel (skipWs r2)).map (fun p => (v :: p.1, p.2))
      | 93 :: r2 => some ([v], r2)
      | _ => none

/-- Dispatch on the first character of a JSON value, as json.scanner does:
an opening brace (123) starts an object, an opening bracket (91) starts an
array, anything else is a primitive. -/
def parseValue (fuel : Nat) (l : List Nat) : Option (JVal × List Nat) :=
  match l with
  | 123 :: rest =>
    match skipWs rest with
    | 125 :: r1 => some (.jdict [], r1)
    | r1 => (parseMembers fuel r1).map (fun p => (.jdict p.1, p.2))
  | 91 :: rest =>
    match skipWs rest with
    | 93 :: r1 => some (.jlist [], r1)
    | r1 => (parseElements fuel r1).map (fun p => (.jlist p.1, p.2))
  | l2 => (parsePrim fuel l2).map (fun p => (.jprim p.1, p.2))

/-- Model of JSONField's default deserializer json.loads, restricted to
the modelled grammar: skip leading whitespace, parse one value, and demand
that only whitespace remains (the Extra data check of raw_decode). -/
def loads (l : List Nat) : Option JVal :=
  match parseValue (l.length + 1) (skipWs l) with
  | some (v, rest) => if skipWs rest = [] then some v else none
  | none => none

/-! ### Roundtrip: the number scanner inverts the int renderer -/

/-- The character after a rendered number must not extend it: not a digit,
not a dot (46), not an exponent marker (101, 69).  Inside encoded output a
number is always followed by a comma or a newline, which satisfy this. -/
def numBoundary : List Nat → Prop
  | [] => True
  | c :: _ => ¬ (48 ≤ c ∧ c ≤ 57) ∧ c ≠ 46 ∧ c ≠ 101 ∧ c ≠ 69

instance : (l : List Nat) → Decidable (numBoundary l)
  | [] => inferInstanceAs (Decidable True)
  | _ :: _ => inferInstanceAs (Decidable (¬ _ ∧ _ ∧ _ ∧ _))

/-- The list does not start with a decimal digit. -/
def noDigitHead : List Nat → Prop
  | [] => True
  | c :: _ => ¬ (48 ≤ c ∧ c ≤ 57)

/-! ### Roundtrip: one primitive -/

/-- All code points of the string are Unicode scalar values. -/
def strOK (s : PyStr) : Prop := ∀ c ∈ s, IsScalar c

instance (s : PyStr) : Decidable (strOK s) := by
  unfold strOK; infer_instance

/-- A supported primitive: its string content, if any, is well-formed
text. -/
def primOK : Prim → Prop
  | .pstr s => strOK s
  | _ => True

instance : (v : Prim) → Decidable (primOK v)
  | .pnull => inferInstanceAs (Decidable True)
  | .pbool _ => inferInstanceAs (Decidable True)
  | .pint _ => inferInstanceAs (Decidable True)
  | .pstr s => inferInstanceAs (Decidable (strOK s))

/-- Length of the string content of a primitive (zero otherwise); used
only for fuel bookkeeping. -/
def strSize : Prim → Nat
  | .pstr s => s.length
  | _ => 0

/-! ### Roundtrip: the object and array loops -/

/-- The key and the value of a member are both well-formed. -/
def kvOK (kv : PyStr × Prim) : Prop := strOK kv.1 ∧ primOK kv.2

instance (kv : PyStr × Prim) : Decidable (kvOK kv) := by
  unfold kvOK; infer_instance

/-- Fuel weight of one member. -/
def sizeKV (kv : PyStr × Prim) : Nat := kv.1.length + strSize kv.2

/-- Fuel weight of a member list: one unit per member plus its strings. -/
def sizeKVs : List (PyStr × Prim) → Nat
  | [] => 0
  | kv :: rest => sizeKV kv + 1 + sizeKVs rest

/-- Fuel weight of an element list. -/
def sizeElems : List Prim → Nat
  | [] => 0
  | v :: rest => strSize v + 1 + sizeElems rest

/-- Python lookup in a dict represented as a key/value list: the value at
the first matching key. -/
def alookup (k : PyStr) : List (PyStr × Prim) → Option Prim
  | [] => none
  | kv :: rest => if kv.1 = k then some kv.2 else alookup k rest

/-- Python == on dicts held as key/value lists: every key maps to the
same value on both sides (for lists with pairwise-distinct keys this is
exactly dict equality). -/
def dictPyEq (d1 d2 : List (PyStr × Prim)) : Prop :=
  ∀ k, alookup k d1 = alookup k d2

/-- Python == on a decoded value and a supported value: structural on
lists and primitives, key-based on dicts. -/
def pyEqJ : JVal → JVal → Prop
  | .jdict d1, .jdict d2 => dictPyEq d1 d2
  | .jlist l1, .jlist l2 => l1 = l2
  | .jprim p1, .jprim p2 => p1 = p2
  | _, _ => False

/-- The canonical result of decoding an encoded supported value: dict
members come back in sorted-key order. -/
def canonJ : Top → JVal
  | .tdict kvs => .jdict (sortItems kvs)
  | .tlist xs => .jlist xs

/-- The supported value, embedded unchanged into the decoded-value type. -/
def topToJ : Top → JVal
  | .tdict kvs => .jdict kvs
  | .tlist xs => .jlist xs

/-- A supported value: strings are well-formed text and dict keys are
pairwise distinct (as the keys of a Python dict always are). -/
def TopOK : Top → Prop
  | .tdict kvs => (∀ kv ∈ kvs, kvOK kv) ∧ (kvs.map Prod.fst).Nodup
  | .tlist xs => ∀ x ∈ xs, primOK x

instance : (v : Top) → Decidable (TopOK v)
  | .tdict _ => inferInstanceAs (Decidable (_ ∧ _))
  | .tlist _ => inferInstanceAs (Decidable (∀ x ∈ _, primOK x))

/-- A concrete supported dict used to witness the roundtrip claim. -/
def exTop : Top := .tdict [([98], .pint (-7)), ([97], .pstr [10, 65, 128512]), ([99], .pnull)]

/-! ## The JSONField conversion hooks (src/annoying/fields.py, class JSONField) -/

/-- A Python value as the field's conversion hooks see it: a str, a
bytes object, a dict or list (restricted to the supported primitive
payloads), None, a bool, an int, or some other object identified by a
tag.  Python 3 semantics: a bytes object never equals a str. -/
inductive Py where
  | pystr (s : PyStr)
  | pybytes (b : List Nat)
  | pydict (kvs : List (PyStr × Prim))
  | pylist (xs : List Prim)
  | pynone
  | pybool (b : Bool)
  | pyint (n : Int)
  | pyother (tag : Nat)
deriving DecidableEq

/-- The Python comparison (value == ""): true exactly for the empty str
(no dict, list, bytes, number or None compares equal to a string). -/
def eqEmptyString : Py → Bool
  | .pystr s => s.isEmpty
  | _ => false

/-- isinstance(value, six.string_types). -/
def isStr : Py → Bool
  | .pystr _ => true
  | _ => false

/-- isinstance(value, bytes). -/
def isBytes : Py → Bool
  | .pybytes _ => true
  | _ => false

/-- isinstance(value, dict) or isinstance(value, list). -/
def isColl : Py → Bool
  | .pydict _ => true
  | .pylist _ => true
  | _ => false

/-- The state of one JSONField instance: the configured serializer and
deserializer hooks (popped from kwargs in JSONField.`__init__`, a
deserializer ValueError modelled as none), the null option, and the
default machinery (hasDefault models self.has_default(); default models
self.default, which is either a plain value or a callable). -/
structure JSONField where
  serializer : Py → PyStr
  deserializer : PyStr → Option Py
  null : Bool
  hasDefault : Bool
  default : Sum Py (Unit → Py)

/-- The default serializer applied to an arbitrary Python value: dicts
and lists encode as in dumps, JSON primitives by their primitive
encoding.  json.dumps raises TypeError on bytes or other objects, which
is outside the modelled domain (the field only serializes values it
stores). -/
def dumpsPy : Py → PyStr
  | .pydict kvs => dumps (.tdict kvs)
  | .pylist xs => dumps (.tlist xs)
  | .pynone => encodePrim .pnull
  | .pybool b => encodePrim (.pbool b)
  | .pyint n => encodePrim (.pint n)
  | .pystr s => encodePrim (.pstr s)
  | .pybytes _ => []
  | .pyother _ => []

/-- A decoded JSON value as a Python value. -/
def jToPy : JVal → Py
  | .jprim .pnull => .pynone
  | .jprim (.pbool b) => .pybool b
  | .jprim (.pint n) => .pyint n
  | .jprim (.pstr s) => .pystr s
  | .jdict kvs => .pydict kvs
  | .jlist xs => .pylist xs

/-- The default deserializer json.loads as a Python-value function. -/
def loadsPy (s : PyStr) : Option Py := (loads s).map jToPy

/-- A JSONField with the default configuration: dumps/loads hooks, not
nullable, no default. -/
def defaultField : JSONField where
  serializer := dumpsPy
  deserializer := loadsPy
  null := false
  hasDefault := false
  default := .inl .pynone

/-- JSONField.to_python: the empty string becomes None; a str is fed to
the deserializer, a bytes value is decoded as UTF-8 first (utf8 models
the external bytes.decode('utf8'); none is a UnicodeDecodeError, which
like a deserializer failure is a ValueError and caught); on any failure,
and for every other type, the value is returned unchanged. -/
def to_python (utf8 : List Nat → Option PyStr) (f : JSONField) (value : Py) : Py :=
  if eqEmptyString value then .pynone
  else
    match value with
    | .pystr s =>
      match f.deserializer s with
      | some w => w
      | none => value
    | .pybytes b =>
      match utf8 b with
      | some s =>
        match f.deserializer s with
        | some w => w
        | none => value
      | none => value
    | _ => value

/-- to_python instrumented to also report the strings passed to the
deserializer ([] when the deserializer is never invoked); the first
component is exactly to_python. -/
def to_python_trace (utf8 : List Nat → Option PyStr) (f : JSONField) (value : Py) :
    Py × List PyStr :=
  if eqEmptyString value then (.pynone, [])
  else
    match value with
    | .pystr s =>
      (match f.deserializer s with
       | some w => w
       | none => value, [s])
    | .pybytes b =>
      match utf8 b with
      | some s =>
        (match f.deserializer s with
         | some w => w
         | none => value, [s])
      | none => (value, [])
    | _ => (value, [])

/-- JSONField.from_db_value simply delegates to to_python. -/
def from_db_value (utf8 : List Nat → Option PyStr) (f : JSONField) (value : Py) : Py :=
  to_python utf8 f value

/-- JSONField.get_prep_value; basePrep models the inherited
TextField.get_prep_value the source delegates to for non-collection
values. -/
def get_prep_value (basePrep : Py → Py) (f : JSONField) (value : Py) : Py :=
  if eqEmptyString value then .pynone
  else
    match value with
    | .pydict kvs => .pystr (f.serializer (.pydict kvs))
    | .pylist xs => .pystr (f.serializer (.pylist xs))
    | _ => basePrep value

/-- JSONField.get_db_prep_save; baseSave models the inherited
get_db_prep_save. -/
def get_db_prep_save (baseSave : Py → Py) (f : JSONField) (value : Py) : Py :=
  if eqEmptyString value then .pynone
  else
    match value with
    | .pydict kvs => .pystr (f.serializer (.pydict kvs))
    | .pylist xs => .pystr (f.serializer (.pylist xs))
    | _ => baseSave value

/-- JSONField.get_default: the configured default raw (called if
callable), bypassing the base class's stringification; the empty string
when no default is configured. -/
def get_default (f : JSONField) : Py :=
  if f.hasDefault then
    match f.default with
    | .inl v => v
    | .inr g => g ()
  else .pystr []

/-- JSONField.value_from_object; the super call reads the attribute
value from the object, modelled as the parameter v. -/
def value_from_object (f : JSONField) (v : Py) : Py :=
  if f.null ∧ v = .pynone then .pynone else .pystr (f.serializer v)

/-- value_from_object instrumented to report the values passed to the
serializer. -/
def value_from_object_trace (f : JSONField) (v : Py) : Py × List Py :=
  if f.null ∧ v = .pynone then (.pynone, []) else (.pystr (f.serializer v), [v])

/-! ## The auto-creating one-to-one accessor
(src/annoying/fields.py, class AutoSingleRelatedObjectDescriptor) -/

/-- The default value of the one further model field of the related
model (creation populates only the back reference, so a created row
carries this default). -/
def extraDefault : Nat := 0

/-- An in-memory instance of the related model: its Python object
identity, the back-reference field, and the further model field. -/
structure Obj where
  oid : Nat
  backref : Nat
  extraField : Nat
deriving DecidableEq

/-- A stored row of the related model's table. -/
structure Row where
  backref : Nat
  extraField : Nat
deriving DecidableEq

/-- The state the accessor acts on: the related-model table, the owning
instance's related-object cache (the inherited descriptor caches the
related instance on the owner after a successful lookup), and an
allocator of fresh Python object identities. -/

structure DState where
  rows : List Row
  cache : Option Obj
  nextOid : Nat
deriving DecidableEq

/-- The exceptions the accessor can meet. -/
inductive Exc where
  | doesNotExist
  | integrityError
  | other (code : Nat)
deriving DecidableEq

/-- The row filter of the accessor: backref = inst. -/
def isFor (inst : Nat) (r : Row) : Bool := r.backref == inst

/-- The inherited SingleRelatedObjectDescriptor.`__get__`: return the
cached related instance when present; otherwise run the standard lookup,
materializing a fresh in-memory instance from the matching row, caching
and returning it; raise the related model's DoesNotExist when no row
matches. -/
def superGet (inst : Nat) (s : DState) : Except Exc (Obj × DState) :=
  match s.cache with
  | some o => .ok (o, s)
  | none =>
    match s.rows.find? (isFor inst) with
    | some r =>
      let o : Obj := ⟨s.nextOid, r.backref, r.extraField⟩
      .ok (o, ⟨s.rows, some o, s.nextOid + 1⟩)
    | none => .error .doesNotExist

/-- Django's QuerySet.get_or_create for the filter (backref = inst):
fetch the matching row when present, else insert exactly one row
populating only the back reference (the extra field keeps its default).
Either way the object it returns is a fresh in-memory instance that is
NOT placed in the owner's related-object cache; the flag reports whether
a row was created. -/
def get_or_create (inst : Nat) (s : DState) : Except Exc ((Obj × Bool) × DState) :=
  match s.rows.find? (isFor inst) with
  | some r =>
    .ok ((⟨s.nextOid, r.backref, r.extraField⟩, false), ⟨s.rows, s.cache, s.nextOid + 1⟩)
  | none =>
    .ok ((⟨s.nextOid, inst, extraDefault⟩, true),
      ⟨s.rows ++ [⟨inst, extraDefault⟩], s.cache, s.nextOid + 1⟩)

/-- AutoSingleRelatedObjectDescriptor.`__get__`, generic in the lookup
and creation operations so failure injection can exercise the error
paths: try the inherited lookup; catch exactly the related model's
DoesNotExist; run the create-if-absent step, discarding the object it
built; re-run the inherited lookup.  Any other exception of the lookup,
and any exception of the creation step, propagates.  (The atomic
decorator delegates transactionality to the framework and leaves this
sequential behavior unchanged.) -/
def autoGetWith (lookup : Nat → DState → Except Exc (Obj × DState))
    (goc : Nat → DState → Except Exc ((Obj × Bool) × DState))
    (inst : Nat) (s : DState) : Except Exc (Obj × DState) :=
  match lookup inst s with
  | .ok os => .ok os
  | .error .doesNotExist =>
    match goc inst s with
    | .ok (_, s2) => lookup inst s2
    | .error e => .error e
  | .error e => .error e

/-- The descriptor's `__get__` with the real lookup and creation. -/
def autoGet (inst : Nat) (s : DState) : Except Exc (Obj × DState) :=
  autoGetWith superGet get_or_create inst s

/-- autoGetWith instrumented to count invocations of the creation
step. -/
def autoGetCount (lookup : Nat → DState → Except Exc (Obj × DState))
    (goc : Nat → DState → Except Exc ((Obj × Bool) × DState))
    (inst : Nat) (s : DState) : Except Exc (Obj × DState) × Nat :=
  match lookup inst s with
  | .ok os => (.ok os, 0)
  | .error .doesNotExist =>
    (match goc inst s with
     | .ok (_, s2) => lookup inst s2
     | .error e => .error e, 1)
  | .error e => (.error e, 0)

/-! ### The two-reader race (claim C9) -/

/-- The position of one reader thread in the accessor: before its
initial lookup, having observed the related row absent, having run the
create-if-absent step, and finished. -/
inductive Pc where
  | start
  | missed
  | created
  | done
deriving DecidableEq

/-- A configuration of the two-reader race on one record: the number of
related rows for that record, and each thread's position. -/
structure Cfg where
  recs : Nat
  pc1 : Pc
  pc2 : Pc
deriving DecidableEq

/-- One atomic step of either thread in the race between two concurrent
first accesses.  A lookup atomically observes the row count; the
create-if-absent step — get_or_create inside the atomic transaction,
whose idempotent insert-if-absent semantics the spec delegates to the
storage layer — inserts a row exactly when none exists; the final
re-lookup succeeds because a row exists by then. -/
inductive RaceStep : Cfg → Cfg → Prop where
  | found1 (c : Cfg) : c.pc1 = .start → 1 ≤ c.recs → RaceStep c { c with pc1 := .done }
  | miss1 (c : Cfg) : c.pc1 = .start → c.recs = 0 → RaceStep c { c with pc1 := .missed }
  | goc1 (c : Cfg) : c.pc1 = .missed →
      RaceStep c { c with recs := if c.recs = 0 then 1 else c.recs, pc1 := .created }
  | relook1 (c : Cfg) : c.pc1 = .created → 1 ≤ c.recs → RaceStep c { c with pc1 := .done }
  | found2 (c : Cfg) : c.pc2 = .start → 1 ≤ c.recs → RaceStep c { c with pc2 := .done }
  | miss2 (c : Cfg) : c.pc2 = .start → c.recs = 0 → RaceStep c { c with pc2 := .missed }
  | goc2 (c : Cfg) : c.pc2 = .missed →
      RaceStep c { c with recs := if c.recs = 0 then 1 else c.recs, pc2 := .created }
  | relook2 (c : Cfg) : c.pc2 = .created → 1 ≤ c.recs → RaceStep c { c with pc2 := .done }

/-- The race invariant: never more than one related row, and a thread
that has run the create-if-absent step (or finished) has seen a row
exist. -/
def RaceInv (c : Cfg) : Prop :=
  c.recs ≤ 1 ∧
  ((c.pc1 = .created ∨ c.pc1 = .done) → 1 ≤ c.recs) ∧
  ((c.pc2 = .created ∨ c.pc2 = .done) → 1 ≤ c.recs)

/-! ## Theorems -/

example : loads [123, 125] = some (.jdict []) := by decide

example : loads [91, 93] = some (.jlist []) := by decide

example : loads [] = none := by decide

/-! ### Roundtrip: the string scanner inverts the ASCII escaper -/

theorem hexVal_hexDig (d : Nat) (hd : d < 16) : hexVal (hexDig d) = some d := by
  unfold hexVal hexDig
  interval_cases d <;> decide

theorem parseHex4_hex4 (n : Nat) (hn : n < 65536) (rest : List Nat) :
    parseHex4 (hex4 n ++ rest) = some (n, rest) := by
  have h1 : n / 4096 % 16 < 16 := Nat.mod_lt _ (by omega)
  have h2 : n / 256 % 16 < 16 := Nat.mod_lt _ (by omega)
  have h3 : n / 16 % 16 < 16 := Nat.mod_lt _ (by omega)
  have h4 : n % 16 < 16 := Nat.mod_lt _ (by omega)
  simp only [hex4, List.cons_append, List.nil_append, parseHex4,
    hexVal_hexDig _ h1, hexVal_hexDig _ h2, hexVal_hexDig _ h3, hexVal_hexDig _ h4]
  have hval : 4096 * (n / 4096 % 16) + 256 * (n / 256 % 16) + 16 * (n / 16 % 16) + n % 16 = n := by
    omega
  rw [hval]

theorem parseUEscape_flat (n : Nat) (hn : n < 65536)
    (hsur : ¬ (55296 ≤ n ∧ n ≤ 56319)) (rest : List Nat) :
    parseUEscape (hex4 n ++ rest) = some (n, rest) := by
  unfold parseUEscape
  rw [parseHex4_hex4 n hn rest]
  simp [hsur]

theorem parseUEscape_highSur (n : Nat) (hn : 55296 ≤ n ∧ n ≤ 56319) (l : List Nat) :
    parseUEscape (hex4 n ++ (92 :: 117 :: l)) =
      (match parseHex4 l with
       | some (m, rest4) =>
         if 56320 ≤ m ∧ m ≤ 57343 then some (65536 + 1024 * (n - 55296) + (m - 56320), rest4)
         else some (n, 92 :: 117 :: l)
       | none => none) := by
  unfold parseUEscape
  rw [parseHex4_hex4 _ (by omega)]
  dsimp only
  rw [if_pos hn]

theorem parseUEscape_pair (n m : Nat) (hn : 55296 ≤ n ∧ n ≤ 56319)
    (hm : 56320 ≤ m ∧ m ≤ 57343) (rest : List Nat) :
    parseUEscape (hex4 n ++ (92 :: 117 :: (hex4 m ++ rest))) =
      some (65536 + 1024 * (n - 55296) + (m - 56320), rest) := by
  rw [parseUEscape_highSur n hn]
  rw [parseHex4_hex4 _ (by omega)]
  dsimp only
  rw [if_pos hm]

theorem parseUEscape_scalar (c : Nat) (h1 : 65536 ≤ c) (h2 : c < 1114112) (rest : List Nat) :
    parseUEscape (hex4 (55296 + (c - 65536) / 1024) ++
      (92 :: 117 :: (hex4 (56320 + (c - 65536) % 1024) ++ rest))) = some (c, rest) := by
  rw [parseUEscape_pair _ _ ⟨by omega, by omega⟩ ⟨by omega, by omega⟩]
  have hc : 65536 + 1024 * (55296 + (c - 65536) / 1024 - 55296) +
      (56320 + (c - 65536) % 1024 - 56320) = c := by omega
  rw [hc]

theorem psb_quote (fuel : Nat) (l : List Nat) :
    parseStringBody (fuel + 1) (34 :: l) = some ([], l) := rfl

theorem psb_backslash (fuel : Nat) (l : List Nat) :
    parseStringBody (fuel + 1) (92 :: l) =
      match parseEscape l with
      | some (ch, r) => (parseStringBody fuel r).map (fun p => (ch :: p.1, p.2))
      | none => none := rfl

theorem psb_lit (c : Nat) (fuel : Nat) (l : List Nat)
    (h3 : c ≠ 34) (h4 : c ≠ 92) (h5 : ¬ c < 32) :
    parseStringBody (fuel + 1) (c :: l) =
      (parseStringBody fuel l).map (fun p => (c :: p.1, p.2)) := by
  rw [parseStringBody, if_neg h3, if_neg h4, if_neg h5]

theorem parseEscape_u (l : List Nat) : parseEscape (117 :: l) = parseUEscape l := rfl

theorem psb_esc_char (fuel ch : Nat) (l r rest2 : List Nat) (s : PyStr)
    (pe : parseEscape l = some (ch, r))
    (pr : parseStringBody fuel r = some (s, rest2)) :
    parseStringBody (fuel + 1) (92 :: l) = some (ch :: s, rest2) := by
  rw [psb_backslash, pe]
  dsimp only
  rw [pr]
  rfl

theorem escapeChar_ctl (c : Nat) (h34 : c ≠ 34) (h92 : c ≠ 92) (h8 : c ≠ 8)
    (h12 : c ≠ 12) (h10 : c ≠ 10) (h13 : c ≠ 13) (h9 : c ≠ 9) (hctl : c < 32) :
    escapeChar c = 92 :: (117 :: hex4 c) := by
  unfold escapeChar
  rw [if_neg h34, if_neg h92, if_neg h8, if_neg h12, if_neg h10, if_neg h13,
    if_neg h9, if_pos hctl]
  rfl

theorem escapeChar_lit (c : Nat) (h34 : c ≠ 34) (h92 : c ≠ 92)
    (hctl : ¬ c < 32) (ha : c ≤ 126) : escapeChar c = [c] := by
  unfold escapeChar
  rw [if_neg h34, if_neg h92, if_neg (by omega : ¬ c = 8), if_neg (by omega : ¬ c = 12),
    if_neg (by omega : ¬ c = 10), if_neg (by omega : ¬ c = 13), if_neg (by omega : ¬ c = 9),
    if_neg hctl, if_pos ha]

theorem escapeChar_bmp (c : Nat) (ha : ¬ c ≤ 126) (hb : c < 65536) :
    escapeChar c = 92 :: (117 :: hex4 c) := by
  unfold escapeChar
  rw [if_neg (by omega : ¬ c = 34), if_neg (by omega : ¬ c = 92),
    if_neg (by omega : ¬ c = 8), if_neg (by omega : ¬ c = 12),
    if_neg (by omega : ¬ c = 10), if_neg (by omega : ¬ c = 13),
    if_neg (by omega : ¬ c = 9), if_neg (by omega : ¬ c < 32), if_neg ha, if_pos hb]
  rfl

theorem escapeChar_astral (c : Nat) (hb : ¬ c < 65536) :
    escapeChar c = 92 :: (117 :: (hex4 (55296 + (c - 65536) / 1024) ++
      (92 :: (117 :: hex4 (56320 + (c - 65536) % 1024))))) := by
  unfold escapeChar
  rw [if_neg (by omega : ¬ c = 34), if_neg (by omega : ¬ c = 92),
    if_neg (by omega : ¬ c = 8), if_neg (by omega : ¬ c = 12),
    if_neg (by omega : ¬ c = 10), if_neg (by omega : ¬ c = 13),
    if_neg (by omega : ¬ c = 9), if_neg (by omega : ¬ c < 32),
    if_neg (by omega : ¬ c ≤ 126), if_neg hb]
  simp [uEscape]

/-- The string scanner inverts the ASCII escaper on any string of scalar
values, leaving the suffix after the closing quote untouched. -/
theorem psb_escape (s : PyStr) : ∀ fuel rest, (∀ c ∈ s, IsScalar c) → s.length < fuel →
    parseStringBody fuel (escapeStr s ++ (34 :: rest)) = some (s, rest) := by
  induction s with
  | nil =>
    intro fuel rest _ hf
    obtain ⟨f, rfl⟩ : ∃ f, fuel = f + 1 := ⟨fuel - 1, by omega⟩
    exact psb_quote f rest
  | cons c s ih =>
    intro fuel rest hs hf
    obtain ⟨f, rfl⟩ : ∃ f, fuel = f + 1 := ⟨fuel - 1, by omega⟩
    have hsc : IsScalar c := hs c (List.mem_cons_self c s)
    have htail : parseStringBody f (escapeStr s ++ (34 :: rest)) = some (s, rest) :=
      ih f rest (fun d hd => hs d (List.mem_cons_of_mem c hd))
        (by simp only [List.length_cons] at hf; omega)
    have hsplit : escapeStr (c :: s) ++ (34 :: rest) =
        escapeChar c ++ (escapeStr s ++ (34 :: rest)) := by
      rw [escapeStr, List.append_assoc]
    rw [hsplit]
    by_cases h34 : c = 34
    · subst h34; exact psb_esc_char f 34 _ _ rest s rfl htail
    by_cases h92 : c = 92
    · subst h92; exact psb_esc_char f 92 _ _ rest s rfl htail
    by_cases h8 : c = 8
    · subst h8; exact psb_esc_char f 8 _ _ rest s rfl htail
    by_cases h12 : c = 12
    · subst h12; exact psb_esc_char f 12 _ _ rest s rfl htail
    by_cases h10 : c = 10
    · subst h10; exact psb_esc_char f 10 _ _ rest s rfl htail
    by_cases h13 : c = 13
    · subst h13; exact psb_esc_char f 13 _ _ rest s rfl htail
    by_cases h9 : c = 9
    · subst h9; exact psb_esc_char f 9 _ _ rest s rfl htail
    by_cases hctl : c < 32
    · rw [escapeChar_ctl c h34 h92 h8 h12 h10 h13 h9 hctl,
        List.cons_append, List.cons_append]
      refine psb_esc_char f c _ _ rest s ?_ htail
      rw [parseEscape_u]
      exact parseUEscape_flat c (by omega) (by omega) _
    by_cases hascii : c ≤ 126
    · rw [escapeChar_lit c h34 h92 hctl hascii, List.singleton_append,
        psb_lit c f _ h34 h92 hctl, htail]
      rfl
    by_cases hbmp : c < 65536
    · rw [escapeChar_bmp c hascii hbmp, List.cons_append, List.cons_append]
      refine psb_esc_char f c _ _ rest s ?_ htail
      rw [parseEscape_u]
      refine parseUEscape_flat c hbmp ?_ _
      rcases hsc with h | h <;> omega
    · have h2 : c < 1114112 := by rcases hsc with h | h <;> omega
      rw [escapeChar_astral c hbmp]
      simp only [List.cons_append, List.append_assoc]
      refine psb_esc_char f c _ _ rest s ?_ htail
      rw [parseEscape_u]
      exact parseUEscape_scalar c (by omega) h2 _

theorem natDigitsAux_digits : ∀ fuel n, n < fuel →
    ∀ d ∈ natDigitsAux fuel n, 48 ≤ d ∧ d ≤ 57 := by
  intro fuel
  induction fuel with
  | zero => intro n hn; exact absurd hn (by omega)
  | succ f ih =>
    intro n hn d hd
    rw [natDigitsAux] at hd
    by_cases h10 : n < 10
    · rw [if_pos h10] at hd
      simp only [List.mem_singleton] at hd
      omega
    · rw [if_neg h10] at hd
      rcases List.mem_append.mp hd with h | h
      · exact ih (n / 10) (by omega) d h
      · simp only [List.mem_singleton] at h
        omega

theorem natDigitsAux_foldl : ∀ fuel n acc, n < fuel →
    (natDigitsAux fuel n).foldl (fun a d => a * 10 + (d - 48)) acc =
      acc * 10 ^ (natDigitsAux fuel n).length + n := by
  intro fuel
  induction fuel with
  | zero => intro n acc hn; exact absurd hn (by omega)
  | succ f ih =>
    intro n acc hn
    rw [natDigitsAux]
    by_cases h10 : n < 10
    · rw [if_pos h10]
      simp only [List.foldl_cons, List.foldl_nil, List.length_singleton, pow_one]
      omega
    · rw [if_neg h10]
      rw [List.foldl_append, ih (n / 10) acc (by omega)]
      simp only [List.foldl_cons, List.foldl_nil, List.length_append,
        List.length_singleton, pow_succ]
      have hx : (n / 10) * 10 + (48 + n % 10 - 48) = n := by omega
      calc (acc * 10 ^ (natDigitsAux f (n / 10)).length + n / 10) * 10 + (48 + n % 10 - 48)
          = acc * (10 ^ (natDigitsAux f (n / 10)).length * 10) +
              ((n / 10) * 10 + (48 + n % 10 - 48)) := by ring
        _ = acc * (10 ^ (natDigitsAux f (n / 10)).length * 10) + n := by rw [hx]

theorem natDigitsAux_lead : ∀ fuel n, n < fuel → 1 ≤ n →
    ∃ d0 ds, natDigitsAux fuel n = d0 :: ds ∧ 49 ≤ d0 ∧ d0 ≤ 57 := by
  intro fuel
  induction fuel with
  | zero => intro n hn _; exact absurd hn (by omega)
  | succ f ih =>
    intro n hn h1
    rw [natDigitsAux]
    by_cases h10 : n < 10
    · rw [if_pos h10]
      exact ⟨48 + n, [], rfl, by omega, by omega⟩
    · rw [if_neg h10]
      obtain ⟨d0, ds, heq, hd1, hd2⟩ := ih (n / 10) (by omega) (by omega)
      exact ⟨d0, ds ++ [48 + n % 10], by rw [heq]; rfl, hd1, hd2⟩

theorem natDigits_head (m : Nat) :
    ∃ d0 ds, natDigits m = d0 :: ds ∧ 48 ≤ d0 ∧ d0 ≤ 57 := by
  by_cases h0 : m = 0
  · exact ⟨48, [], by rw [h0]; rfl, by omega, by omega⟩
  · obtain ⟨d0, ds, heq, hd1, hd2⟩ := natDigitsAux_lead (m + 1) m (by omega) (by omega)
    exact ⟨d0, ds, heq, by omega, by omega⟩

theorem digitsLoop_spec : ∀ ds : List Nat, ∀ acc rest,
    (∀ d ∈ ds, 48 ≤ d ∧ d ≤ 57) → noDigitHead rest →
    digitsLoop acc (ds ++ rest) = (ds.foldl (fun a d => a * 10 + (d - 48)) acc, rest) := by
  intro ds
  induction ds with
  | nil =>
    intro acc rest _ hb
    cases rest with
    | nil => rfl
    | cons c r =>
      simp only [List.nil_append, List.foldl_nil, digitsLoop, if_neg (hb : ¬ _)]
  | cons d ds ih =>
    intro acc rest hds hb
    have hd := hds d (List.mem_cons_self d ds)
    simp only [List.cons_append, digitsLoop, if_pos hd, List.foldl_cons]
    exact ih _ rest (fun x hx => hds x (List.mem_cons_of_mem d hx)) hb

theorem parseUNumber_natDigits (n : Nat) (rest : List Nat) (hb : numBoundary rest) :
    parseUNumber (natDigits n ++ rest) = some (n, rest) := by
  by_cases h0 : n = 0
  · subst h0
    show parseUNumber (48 :: rest) = some (0, rest)
    cases rest with
    | nil => rfl
    | cons c r =>
      have hb2 : ¬ ((48 ≤ c ∧ c ≤ 57) ∨ c = 46 ∨ c = 101 ∨ c = 69) := by
        unfold numBoundary at hb
        omega
      simp [parseUNumber, hb2]
  · have hdig : ∀ d ∈ natDigits n, 48 ≤ d ∧ d ≤ 57 :=
      natDigitsAux_digits (n + 1) n (by omega)
    obtain ⟨d0, ds, heq, h49, h57⟩ := natDigitsAux_lead (n + 1) n (by omega) (by omega)
    have heq2 : natDigits n = d0 :: ds := heq
    have hds : ∀ d ∈ ds, 48 ≤ d ∧ d ≤ 57 := fun d hd =>
      hdig d (by rw [heq2]; exact List.mem_cons_of_mem d0 hd)
    have hb2 : noDigitHead rest := by
      cases rest with
      | nil => trivial
      | cons c r => exact hb.1
    have hval : ds.foldl (fun a d => a * 10 + (d - 48)) (d0 - 48) = n := by
      have h1 := natDigitsAux_foldl (n + 1) n 0 (by omega)
      rw [show natDigitsAux (n + 1) n = d0 :: ds from heq] at h1
      simpa using h1
    rw [heq2, List.cons_append]
    simp only [parseUNumber, if_neg (by omega : ¬ d0 = 48),
      if_pos (⟨h49, h57⟩ : 49 ≤ d0 ∧ d0 ≤ 57)]
    rw [digitsLoop_spec ds (d0 - 48) rest hds hb2, hval]
    cases rest with
    | nil => rfl
    | cons c r =>
      have : ¬ (c = 46 ∨ c = 101 ∨ c = 69) := by
        unfold numBoundary at hb
        omega
      simp only [if_neg this]

theorem parseNumber_intRepr (n : Int) (rest : List Nat) (hb : numBoundary rest) :
    parseNumber (intRepr n ++ rest) = some (n, rest) := by
  by_cases hneg : n < 0
  · rw [show intRepr n = 45 :: natDigits (-n).toNat from by rw [intRepr, if_pos hneg]]
    rw [List.cons_append]
    simp only [parseNumber, if_pos rfl]
    rw [parseUNumber_natDigits _ rest hb]
    show some (-(((-n).toNat : Int)), rest) = some (n, rest)
    rw [show -(((-n).toNat : Int)) = n from by omega]
  · rw [show intRepr n = natDigits n.toNat from by rw [intRepr, if_neg hneg]]
    obtain ⟨d0, ds, heq, hd1, hd2⟩ := natDigits_head n.toNat
    rw [heq, List.cons_append]
    simp only [parseNumber, if_neg (by omega : ¬ d0 = 45)]
    rw [← List.cons_append, ← heq, parseUNumber_natDigits n.toNat rest hb]
    show some (((n.toNat : Int)), rest) = some (n, rest)
    rw [show ((n.toNat : Int)) = n from by omega]

theorem parsePrim_num (fuel c : Nat) (l : List Nat) (h1 : c ≠ 34) (h2 : c ≠ 110)
    (h3 : c ≠ 116) (h4 : c ≠ 102) :
    parsePrim fuel (c :: l) = (parseNumber (c :: l)).map (fun p => (.pint p.1, p.2)) := by
  simp only [parsePrim, if_neg h1, if_neg h2, if_neg h3, if_neg h4]

theorem parsePrim_encode (v : Prim) (fuel : Nat) (rest : List Nat) (hv : primOK v)
    (hf : strSize v < fuel) (hb : numBoundary rest) :
    parsePrim fuel (encodePrim v ++ rest) = some (v, rest) := by
  cases v with
  | pnull => rfl
  | pbool b => cases b <;> rfl
  | pint n =>
    by_cases hneg : n < 0
    · have hrep : intRepr n = 45 :: natDigits (-n).toNat := by rw [intRepr, if_pos hneg]
      show parsePrim fuel (intRepr n ++ rest) = _
      rw [hrep, List.cons_append,
        parsePrim_num fuel 45 _ (by omega) (by omega) (by omega) (by omega),
        ← List.cons_append, ← hrep, parseNumber_intRepr n rest hb]
      rfl
    · have hrep : intRepr n = natDigits n.toNat := by rw [intRepr, if_neg hneg]
      obtain ⟨d0, ds, heq, hd1, hd2⟩ := natDigits_head n.toNat
      show parsePrim fuel (intRepr n ++ rest) = _
      rw [hrep, heq, List.cons_append,
        parsePrim_num fuel d0 _ (by omega) (by omega) (by omega) (by omega),
        ← List.cons_append, ← heq, ← hrep, parseNumber_intRepr n rest hb]
      rfl
  | pstr s =>
    have hshape : encodePrim (.pstr s) ++ rest = 34 :: (escapeStr s ++ (34 :: rest)) := by
      show encodeString s ++ rest = _
      rw [encodeString]
      simp [List.append_assoc]
    rw [hshape]
    have hstep : parsePrim fuel (34 :: (escapeStr s ++ (34 :: rest))) =
        (parseStringBody fuel (escapeStr s ++ (34 :: rest))).map
          (fun p => (Prim.pstr p.1, p.2)) := rfl
    rw [hstep, psb_escape s fuel rest hv hf]
    rfl

theorem skipWs_ws3 (l : List Nat) : skipWs (10 :: 32 :: 32 :: l) = skipWs l := rfl

theorem skipWs_encodeString (k : PyStr) (l : List Nat) :
    skipWs (encodeString k ++ l) = encodeString k ++ l := by
  rw [encodeString, List.cons_append]
  rfl

theorem skipWs_encodePrim (v : Prim) (l : List Nat) :
    skipWs (encodePrim v ++ l) = encodePrim v ++ l := by
  cases v with
  | pnull => rfl
  | pbool b => cases b <;> rfl
  | pint n =>
    show skipWs (intRepr n ++ l) = intRepr n ++ l
    by_cases hneg : n < 0
    · rw [intRepr, if_pos hneg]
      rfl
    · rw [intRepr, if_neg hneg]
      obtain ⟨d0, ds, heq, hd1, hd2⟩ := natDigits_head n.toNat
      rw [heq, List.cons_append]
      have hws : isWs d0 = false := by
        unfold isWs
        simp only [Bool.or_eq_false_iff, decide_eq_false_iff_not]
        omega
      rw [skipWs, hws]
      simp
  | pstr s =>
    rw [show encodePrim (.pstr s) = encodeString s from rfl]
    exact skipWs_encodeString s l

/-- One unfolding of the member loop at a key quote. -/
theorem parseMembers_cons (fuel : Nat) (l : List Nat) :
    parseMembers (fuel + 1) (34 :: l) =
      match parseStringBody (fuel + 1) l with
      | none => none
      | some (k, r1) =>
        match skipWs r1 with
        | 58 :: r2 =>
          match parsePrim (fuel + 1) (skipWs r2) with
          | none => none
          | some (v, r3) =>
            match skipWs r3 with
            | 44 :: r4 => (parseMembers fuel (skipWs r4)).map (fun p => ((k, v) :: p.1, p.2))
            | 125 :: r4 => some ([(k, v)], r4)
            | _ => none
        | _ => none := rfl

/-- One unfolding of the element loop. -/
theorem parseElements_cons (fuel : Nat) (l : List Nat) :
    parseElements (fuel + 1) l =
      match parsePrim (fuel + 1) l with
      | none => none
      | some (v, r1) =>
        match skipWs r1 with
        | 44 :: r2 => (parseElements fuel (skipWs r2)).map (fun p => (v :: p.1, p.2))
        | 93 :: r2 => some ([v], r2)
        | _ => none := rfl

/-- Processing one encoded member: parse the key, the colon-space
separator, and the value, leaving the decision on the following
character to the caller. -/
theorem parseMembers_item (fuel : Nat) (k : PyStr) (v : Prim) (t3 : List Nat)
    (hk : strOK k) (hv : primOK v) (hkf : k.length < fuel + 1)
    (hvf : strSize v < fuel + 1) (hb : numBoundary t3) :
    parseMembers (fuel + 1) (encodeString k ++ (58 :: 32 :: (encodePrim v ++ t3))) =
      (match skipWs t3 with
       | 44 :: r4 => (parseMembers fuel (skipWs r4)).map (fun p => ((k, v) :: p.1, p.2))
       | 125 :: r4 => some ([(k, v)], r4)
       | _ => none) := by
  have hshape : encodeString k ++ (58 :: 32 :: (encodePrim v ++ t3)) =
      34 :: (escapeStr k ++ (34 :: (58 :: 32 :: (encodePrim v ++ t3)))) := by
    rw [encodeString]
    simp [List.append_assoc]
  rw [hshape, parseMembers_cons, psb_escape k (fuel + 1) _ hk hkf]
  dsimp only
  rw [show skipWs (58 :: (32 :: (encodePrim v ++ t3))) = 58 :: (32 :: (encodePrim v ++ t3))
    from rfl]
  dsimp only
  rw [show skipWs (32 :: (encodePrim v ++ t3)) = skipWs (encodePrim v ++ t3) from rfl,
    skipWs_encodePrim v t3, parsePrim_encode v (fuel + 1) t3 hv hvf hb]

/-- The member loop decodes an encoded nonempty member sequence followed
by the closing newline and brace, returning the members in encoded
order. -/
theorem parseMembers_encode : ∀ (kvs : List (PyStr × Prim)) (fuel : Nat) (k : PyStr)
    (v : Prim) (rest : List Nat), strOK k → primOK v → (∀ kv ∈ kvs, kvOK kv) →
    sizeKV (k, v) + sizeKVs kvs < fuel →
    parseMembers fuel
      (encodeString k ++ (58 :: 32 :: (encodePrim v ++ (encodeMoreKVs kvs ++ (10 :: 125 :: rest)))))
      = some ((k, v) :: kvs, rest) := by
  intro kvs
  induction kvs with
  | nil =>
    intro fuel k v rest hk hv _ hf
    obtain ⟨f, rfl⟩ : ∃ f, fuel = f + 1 := ⟨fuel - 1, by omega⟩
    have hsz : sizeKV (k, v) = k.length + strSize v := rfl
    rw [show encodeMoreKVs [] ++ (10 :: 125 :: rest) = 10 :: 125 :: rest from rfl]
    rw [parseMembers_item f k v _ hk hv (by rw [hsz] at hf; simp [sizeKVs] at hf; omega)
      (by rw [hsz] at hf; simp [sizeKVs] at hf; omega)
      (by exact ⟨by omega, by omega, by omega, by omega⟩)]
    rfl
  | cons kv2 kvs ih =>
    intro fuel k v rest hk hv hkvs hf
    obtain ⟨k2, v2⟩ := kv2
    obtain ⟨f, rfl⟩ : ∃ f, fuel = f + 1 := ⟨fuel - 1, by omega⟩
    have hf2 : k.length + strSize v + (k2.length + strSize v2 + 1 + sizeKVs kvs) < f + 1 := by
      dsimp only [sizeKV, sizeKVs] at hf
      omega
    have hshape : encodeMoreKVs ((k2, v2) :: kvs) ++ (10 :: 125 :: rest) =
        44 :: 10 :: 32 :: 32 :: (encodeString k2 ++
          (58 :: 32 :: (encodePrim v2 ++ (encodeMoreKVs kvs ++ (10 :: 125 :: rest))))) := by
      rw [encodeMoreKVs, encodeKV]
      simp [List.append_assoc]
    rw [hshape]
    rw [parseMembers_item f k v _ hk hv (by omega) (by omega)
      (by unfold numBoundary; omega)]
    rw [show skipWs (44 :: 10 :: 32 :: 32 :: (encodeString k2 ++
      (58 :: 32 :: (encodePrim v2 ++ (encodeMoreKVs kvs ++ (10 :: 125 :: rest)))))) =
      44 :: 10 :: 32 :: 32 :: (encodeString k2 ++
      (58 :: 32 :: (encodePrim v2 ++ (encodeMoreKVs kvs ++ (10 :: 125 :: rest))))) from rfl]
    dsimp only
    rw [show skipWs (10 :: 32 :: 32 :: (encodeString k2 ++
      (58 :: 32 :: (encodePrim v2 ++ (encodeMoreKVs kvs ++ (10 :: 125 :: rest)))))) =
      skipWs (encodeString k2 ++
      (58 :: 32 :: (encodePrim v2 ++ (encodeMoreKVs kvs ++ (10 :: 125 :: rest)))))
      from skipWs_ws3 _]
    rw [skipWs_encodeString]
    have hkv2 := hkvs (k2, v2) (List.mem_cons_self (k2, v2) kvs)
    rw [ih f k2 v2 rest hkv2.1 hkv2.2
      (fun x hx => hkvs x (List.mem_cons_of_mem (k2, v2) hx))
      (by dsimp only [sizeKV]; omega)]
    rfl

/-- The element loop decodes an encoded nonempty element sequence followed
by the closing newline and bracket. -/
theorem parseElements_encode : ∀ (xs : List Prim) (fuel : Nat) (v : Prim)
    (rest : List Nat), primOK v → (∀ x ∈ xs, primOK x) →
    strSize v + sizeElems xs < fuel →
    parseElements fuel (encodePrim v ++ (encodeMoreItems xs ++ (10 :: 93 :: rest)))
      = some (v :: xs, rest) := by
  intro xs
  induction xs with
  | nil =>
    intro fuel v rest hv _ hf
    obtain ⟨f, rfl⟩ : ∃ f, fuel = f + 1 := ⟨fuel - 1, by omega⟩
    rw [show encodeMoreItems [] ++ (10 :: 93 :: rest) = 10 :: 93 :: rest from rfl]
    rw [parseElements_cons,
      parsePrim_encode v (f + 1) _ hv (by simp [sizeElems] at hf; omega)
        (by unfold numBoundary; omega)]
    rfl
  | cons x xs ih =>
    intro fuel v rest hv hxs hf
    obtain ⟨f, rfl⟩ : ∃ f, fuel = f + 1 := ⟨fuel - 1, by omega⟩
    have hshape : encodeMoreItems (x :: xs) ++ (10 :: 93 :: rest) =
        44 :: 10 :: 32 :: 32 :: (encodePrim x ++ (encodeMoreItems xs ++ (10 :: 93 :: rest))) := by
      rw [encodeMoreItems, encodeItem]
      simp [List.append_assoc]
    rw [hshape, parseElements_cons,
      parsePrim_encode v (f + 1) _ hv (by unfold sizeElems at hf; omega)
        (by unfold numBoundary; omega)]
    dsimp only
    rw [show skipWs (44 :: 10 :: 32 :: 32 :: (encodePrim x ++ (encodeMoreItems xs ++ (10 :: 93 :: rest)))) =
      44 :: 10 :: 32 :: 32 :: (encodePrim x ++ (encodeMoreItems xs ++ (10 :: 93 :: rest))) from rfl]
    dsimp only
    rw [show skipWs (10 :: 32 :: 32 :: (encodePrim x ++ (encodeMoreItems xs ++ (10 :: 93 :: rest)))) =
      skipWs (encodePrim x ++ (encodeMoreItems xs ++ (10 :: 93 :: rest))) from skipWs_ws3 _]
    rw [skipWs_encodePrim]
    rw [ih f x rest (hxs x (List.mem_cons_self x xs))
      (fun y hy => hxs y (List.mem_cons_of_mem x hy)) (by unfold sizeElems at hf; omega)]
    rfl

/-! ### Fuel bounds: encoded output is long enough -/

theorem escapeChar_length (c : Nat) : 1 ≤ (escapeChar c).length := by
  by_cases h34 : c = 34
  · subst h34; decide
  by_cases h92 : c = 92
  · subst h92; decide
  by_cases h8 : c = 8
  · subst h8; decide
  by_cases h12 : c = 12
  · subst h12; decide
  by_cases h10 : c = 10
  · subst h10; decide
  by_cases h13 : c = 13
  · subst h13; decide
  by_cases h9 : c = 9
  · subst h9; decide
  by_cases hctl : c < 32
  · rw [escapeChar_ctl c h34 h92 h8 h12 h10 h13 h9 hctl]
    simp
  by_cases hascii : c ≤ 126
  · rw [escapeChar_lit c h34 h92 hctl hascii]
    simp
  by_cases hbmp : c < 65536
  · rw [escapeChar_bmp c hascii hbmp]
    simp
  · rw [escapeChar_astral c hbmp]
    simp

theorem escapeStr_length (s : PyStr) : s.length ≤ (escapeStr s).length := by
  induction s with
  | nil => simp [escapeStr]
  | cons c s ih =>
    have := escapeChar_length c
    simp only [escapeStr, List.length_append, List.length_cons]
    omega

theorem encodePrim_length (v : Prim) : strSize v + 1 ≤ (encodePrim v).length := by
  cases v with
  | pnull => simp [encodePrim, strSize]
  | pbool b => cases b <;> simp [encodePrim, strSize]
  | pint n =>
    show strSize (.pint n) + 1 ≤ (intRepr n).length
    by_cases hneg : n < 0
    · rw [intRepr, if_pos hneg]
      simp [strSize]
    · rw [intRepr, if_neg hneg]
      obtain ⟨d0, ds, heq, _, _⟩ := natDigits_head n.toNat
      rw [heq]
      simp [strSize]
  | pstr s =>
    have := escapeStr_length s
    simp only [encodePrim, encodeString, strSize, List.length_cons, List.length_append]
    simp
    omega

theorem encodeKV_length (kv : PyStr × Prim) : sizeKV kv + 1 ≤ (encodeKV kv).length := by
  have h1 := escapeStr_length kv.1
  have h2 := encodePrim_length kv.2
  simp only [encodeKV, encodeString, sizeKV, List.length_cons, List.length_append]
  simp at h2 ⊢
  omega

theorem encodeMoreKVs_length (l : List (PyStr × Prim)) :
    sizeKVs l ≤ (encodeMoreKVs l).length := by
  induction l with
  | nil => simp [encodeMoreKVs, sizeKVs]
  | cons kv rest ih =>
    have := encodeKV_length kv
    simp only [encodeMoreKVs, sizeKVs, List.length_cons, List.length_append]
    omega

theorem encodeMoreItems_length (l : List Prim) :
    sizeElems l ≤ (encodeMoreItems l).length := by
  induction l with
  | nil => simp [encodeMoreItems, sizeElems]
  | cons v rest ih =>
    have := encodePrim_length v
    simp only [encodeMoreItems, sizeElems, encodeItem, List.length_cons, List.length_append]
    omega

/-! ### The sort is a permutation, and permutations preserve dict lookups -/

theorem insertByKey_perm (kv : PyStr × Prim) (l : List (PyStr × Prim)) :
    (insertByKey kv l).Perm (kv :: l) := by
  induction l with
  | nil => exact List.Perm.refl _
  | cons kv2 rest ih =>
    rw [insertByKey]
    split
    · exact List.Perm.refl _
    · exact (ih.cons kv2).trans (List.Perm.swap kv kv2 rest)

theorem sortItems_perm (l : List (PyStr × Prim)) : (sortItems l).Perm l := by
  induction l with
  | nil => exact List.Perm.refl _
  | cons kv rest ih => exact (insertByKey_perm kv (sortItems rest)).trans (ih.cons kv)

theorem perm_alookup {l1 l2 : List (PyStr × Prim)} (p : l1.Perm l2) :
    ((l2.map Prod.fst).Nodup) → ∀ k, alookup k l1 = alookup k l2 := by
  induction p with
  | nil => intro _ _; rfl
  | cons x p ih =>
    intro hnd k
    rw [List.map_cons] at hnd
    have hnd2 := List.Nodup.of_cons hnd
    by_cases hx : x.1 = k
    · simp [alookup, hx]
    · simp only [alookup, if_neg hx]
      exact ih hnd2 k
  | swap x y l =>
    intro hnd k
    rw [List.map_cons, List.map_cons] at hnd
    have h1 := List.nodup_cons.mp hnd
    have hxy : y.1 ≠ x.1 := fun h => h1.1 (List.mem_cons.mpr (Or.inl h.symm))
    by_cases hx : x.1 = k <;> by_cases hy : y.1 = k
    · exact absurd (hy.trans hx.symm) hxy
    · simp [alookup, hx, hy]
    · simp [alookup, hx, hy]
    · simp [alookup, hx, hy]
  | trans p1 p2 ih1 ih2 =>
    intro hnd k
    have hnd2 := ((p2.map Prod.fst).nodup_iff).mpr hnd
    rw [ih1 hnd2 k, ih2 hnd k]

/-! ### Top level: loads inverts dumps -/

theorem parseValue_obj (fuel : Nat) (l : List Nat) :
    parseValue fuel (123 :: l) =
      (match skipWs l with
       | 125 :: r1 => some (.jdict [], r1)
       | r1 => (parseMembers fuel r1).map (fun p => (.jdict p.1, p.2))) := rfl

theorem parseValue_arr (fuel : Nat) (l : List Nat) :
    parseValue fuel (91 :: l) =
      (match skipWs l with
       | 93 :: r1 => some (.jlist [], r1)
       | r1 => (parseElements fuel r1).map (fun p => (.jlist p.1, p.2))) := rfl

/-- Every encoded primitive starts with a character that is neither
whitespace nor a closing bracket nor a closing brace. -/
theorem encodePrim_head (v : Prim) :
    ∃ c0 t0, encodePrim v = c0 :: t0 ∧ isWs c0 = false ∧ c0 ≠ 93 := by
  cases v with
  | pnull => exact ⟨110, _, rfl, rfl, by omega⟩
  | pbool b =>
    cases b with
    | false => exact ⟨102, _, rfl, rfl, by omega⟩
    | true => exact ⟨116, _, rfl, rfl, by omega⟩
  | pint n =>
    by_cases hneg : n < 0
    · exact ⟨45, _, by rw [show encodePrim (.pint n) = intRepr n from rfl, intRepr,
        if_pos hneg], rfl, by omega⟩
    · obtain ⟨d0, ds, heq, hd1, hd2⟩ := natDigits_head n.toNat
      refine ⟨d0, ds, by rw [show encodePrim (.pint n) = intRepr n from rfl, intRepr,
        if_neg hneg, heq], ?_, by omega⟩
      unfold isWs
      simp only [Bool.or_eq_false_iff, decide_eq_false_iff_not]
      omega
  | pstr s => exact ⟨34, _, rfl, rfl, by omega⟩

/-- Reduce the array dispatch when the first element does not start with
a closing bracket. -/
theorem matchArr_ne (fuel : Nat) (c0 : Nat) (t0 : List Nat) (h93 : c0 ≠ 93) :
    (match (c0 :: t0 : List Nat) with
     | 93 :: r1 => some (JVal.jlist [], r1)
     | r1 => (parseElements fuel r1).map (fun p => (.jlist p.1, p.2))) =
    (parseElements fuel (c0 :: t0)).map (fun p => (.jlist p.1, p.2)) := by
  split
  · next r1 heq =>
    exfalso
    apply h93
    injection heq with h1 h2
  · rfl

theorem loads_dumps (v : Top) (hv : TopOK v) : loads (dumps v) = some (canonJ v) := by
  cases v with
  | tdict kvs =>
    rcases hkv : sortItems kvs with _ | ⟨⟨k1, v1⟩, rest2⟩
    · have hk0 : kvs = [] := by
        have hp := sortItems_perm kvs
        rw [hkv] at hp
        exact (hp.symm).eq_nil
      subst hk0
      rfl
    · obtain ⟨kv0, kvs0, rfl⟩ : ∃ kv0 kvs0, kvs = kv0 :: kvs0 := by
        cases kvs with
        | nil => exact absurd hkv (by simp [sortItems])
        | cons a b => exact ⟨a, b, rfl⟩
      have hmem : ∀ kv ∈ (k1, v1) :: rest2, kvOK kv := by
        intro kv hkv2
        exact hv.1 kv ((sortItems_perm (kv0 :: kvs0)).subset (hkv ▸ hkv2))
      have hk1 : kvOK (k1, v1) := hmem (k1, v1) (List.mem_cons_self _ _)
      have hrest : ∀ kv ∈ rest2, kvOK kv :=
        fun kv h => hmem kv (List.mem_cons_of_mem _ h)
      have htext : dumps (.tdict (kv0 :: kvs0)) =
          123 :: 10 :: 32 :: 32 :: (encodeString k1 ++
            (58 :: 32 :: (encodePrim v1 ++ (encodeMoreKVs rest2 ++ (10 :: 125 :: []))))) := by
        show (match sortItems (kv0 :: kvs0) with
          | [] => [123, 125]
          | kv :: rest => 123 :: 10 :: (encodeKV kv ++ encodeMoreKVs rest ++ [10, 125])) = _
        rw [hkv]
        dsimp only
        rw [encodeKV]
        simp [List.append_assoc]
      have hsize : sizeKV (k1, v1) + sizeKVs rest2 <
          (123 :: 10 :: 32 :: 32 :: (encodeString k1 ++
            (58 :: 32 :: (encodePrim v1 ++ (encodeMoreKVs rest2 ++
              (10 :: 125 :: [])))))).length + 1 := by
        have h1 := encodeKV_length (k1, v1)
        have h2 := encodeMoreKVs_length rest2
        simp only [encodeKV, List.length_cons, List.length_append] at h1 ⊢
        omega
      rw [loads, htext]
      rw [show skipWs (123 :: 10 :: 32 :: 32 :: (encodeString k1 ++
        (58 :: 32 :: (encodePrim v1 ++ (encodeMoreKVs rest2 ++ (10 :: 125 :: [])))))) =
        123 :: 10 :: 32 :: 32 :: (encodeString k1 ++
        (58 :: 32 :: (encodePrim v1 ++ (encodeMoreKVs rest2 ++ (10 :: 125 :: []))))) from rfl]
      rw [parseValue_obj]
      rw [show skipWs (10 :: 32 :: 32 :: (encodeString k1 ++
        (58 :: 32 :: (encodePrim v1 ++ (encodeMoreKVs rest2 ++ (10 :: 125 :: [])))))) =
        skipWs (encodeString k1 ++
        (58 :: 32 :: (encodePrim v1 ++ (encodeMoreKVs rest2 ++ (10 :: 125 :: [])))))
        from skipWs_ws3 _]
      rw [skipWs_encodeString]
      rw [show encodeString k1 ++
        (58 :: 32 :: (encodePrim v1 ++ (encodeMoreKVs rest2 ++ (10 :: 125 :: [])))) =
        34 :: (escapeStr k1 ++ (34 :: (58 :: 32 :: (encodePrim v1 ++
          (encodeMoreKVs rest2 ++ (10 :: 125 :: [])))))) from by
        rw [encodeString]
        simp [List.append_assoc]]
      dsimp only
      rw [show 34 :: (escapeStr k1 ++ (34 :: (58 :: 32 :: (encodePrim v1 ++
          (encodeMoreKVs rest2 ++ (10 :: 125 :: [])))))) =
        encodeString k1 ++
        (58 :: 32 :: (encodePrim v1 ++ (encodeMoreKVs rest2 ++ (10 :: 125 :: [])))) from by
        rw [encodeString]
        simp [List.append_assoc]]
      rw [parseMembers_encode rest2 _ k1 v1 [] hk1.1 hk1.2 hrest hsize]
      rw [show canonJ (.tdict (kv0 :: kvs0)) = .jdict ((k1, v1) :: rest2) from by
        rw [canonJ, hkv]]
      rfl
  | tlist xs =>
    cases xs with
    | nil => rfl
    | cons x1 rest2 =>
      have hx1 : primOK x1 := hv x1 (List.mem_cons_self _ _)
      have hrest : ∀ y ∈ rest2, primOK y := fun y h => hv y (List.mem_cons_of_mem _ h)
      have htext : dumps (.tlist (x1 :: rest2)) =
          91 :: 10 :: 32 :: 32 :: (encodePrim x1 ++
            (encodeMoreItems rest2 ++ (10 :: 93 :: []))) := by
        show 91 :: 10 :: (encodeItem x1 ++ encodeMoreItems rest2 ++ [10, 93]) = _
        rw [encodeItem]
        simp [List.append_assoc]
      have hsize : strSize x1 + sizeElems rest2 <
          (91 :: 10 :: 32 :: 32 :: (encodePrim x1 ++
            (encodeMoreItems rest2 ++ (10 :: 93 :: [])))).length + 1 := by
        have h1 := encodePrim_length x1
        have h2 := encodeMoreItems_length rest2
        simp only [List.length_cons, List.length_append] at h1 ⊢
        omega
      rw [loads, htext]
      rw [show skipWs (91 :: 10 :: 32 :: 32 :: (encodePrim x1 ++
        (encodeMoreItems rest2 ++ (10 :: 93 :: [])))) =
        91 :: 10 :: 32 :: 32 :: (encodePrim x1 ++
        (encodeMoreItems rest2 ++ (10 :: 93 :: []))) from rfl]
      rw [parseValue_arr]
      rw [show skipWs (10 :: 32 :: 32 :: (encodePrim x1 ++
        (encodeMoreItems rest2 ++ (10 :: 93 :: [])))) =
        skipWs (encodePrim x1 ++ (encodeMoreItems rest2 ++ (10 :: 93 :: [])))
        from skipWs_ws3 _]
      rw [skipWs_encodePrim]
      obtain ⟨c0, t0, hep, hws0, h93⟩ := encodePrim_head x1
      rw [show encodePrim x1 ++ (encodeMoreItems rest2 ++ (10 :: 93 :: [])) =
        c0 :: (t0 ++ (encodeMoreItems rest2 ++ (10 :: 93 :: []))) from by
        rw [hep, List.cons_append]]
      rw [matchArr_ne _ c0 _ h93]
      rw [show c0 :: (t0 ++ (encodeMoreItems rest2 ++ (10 :: 93 :: []))) =
        encodePrim x1 ++ (encodeMoreItems rest2 ++ (10 :: 93 :: [])) from by
        rw [hep, List.cons_append]]
      rw [parseElements_encode rest2 _ x1 [] hx1 hrest hsize]
      rfl

/-- C2: for every supported value v (a dict of JSON primitives or a list
of JSON primitives), applying the field's default deserializer (the model
of json.loads) to the output of its default serializer (the dumps closure
of JSONField.`__init__`) succeeds and yields a value Python-equal to v:
decode(encode(v)) == v.  Decoding returns dict members in sorted-key
order, which is the same dict.  The converse encode(decode(s)) == s is
not asserted. -/
theorem claim_C2_decode_encode_roundtrip (v : Top) (hv : TopOK v) :
    loads (dumps v) = some (canonJ v) ∧ pyEqJ (canonJ v) (topToJ v) := by
  refine ⟨loads_dumps v hv, ?_⟩
  cases v with
  | tdict kvs => exact fun k => perm_alookup (sortItems_perm kvs) hv.2 k
  | tlist xs => rfl

theorem claim_C2_witness :
    TopOK exTop ∧
      (loads (dumps exTop) = some (canonJ exTop) ∧ pyEqJ (canonJ exTop) (topToJ exTop)) :=
  ⟨by decide, claim_C2_decode_encode_roundtrip exTop (by decide)⟩

/-! ## Claims about the JSONField hooks -/

/-- C4: reading the empty string through to_python (and from_db_value,
which delegates to it) yields None — not the empty string and not an
error — under every deserializer, and the deserializer is never
invoked. -/
theorem claim_C4_empty_string (utf8 : List Nat → Option PyStr) (f : JSONField) :
    to_python utf8 f (.pystr []) = .pynone ∧
    from_db_value utf8 f (.pystr []) = .pynone ∧
    to_python_trace utf8 f (.pystr []) = (.pynone, []) ∧
    Py.pynone ≠ .pystr [] :=
  ⟨rfl, rfl, rfl, by decide⟩

/-- C3 counterexample: the empty string is a stored string on which the
default deserializer fails (json.loads of "" raises ValueError), yet
to_python returns None, not the string itself — so the claim fails as
stated for s = "". -/
theorem claim_C3_counterexample :
    defaultField.deserializer [] = none ∧
    to_python (fun _ => none) defaultField (.pystr []) = .pynone ∧
    Py.pynone ≠ .pystr [] :=
  ⟨rfl, rfl, by decide⟩

/-- C3 amended: for every nonempty stored string on which the field's
deserializer fails, to_python and from_db_value return that string
unchanged, raising no error. -/
theorem claim_C3_failed_decode (utf8 : List Nat → Option PyStr) (f : JSONField)
    (s : PyStr) (hs : s ≠ []) (hd : f.deserializer s = none) :
    to_python utf8 f (.pystr s) = .pystr s ∧
    from_db_value utf8 f (.pystr s) = .pystr s := by
  have hne : eqEmptyString (.pystr s) = false := by
    cases s with
    | nil => exact absurd rfl hs
    | cons c t => rfl
  have h1 : to_python utf8 f (.pystr s) = .pystr s := by
    unfold to_python
    rw [hne]
    simp [hd]
  exact ⟨h1, h1⟩

theorem claim_C3_witness :
    (([120] : PyStr) ≠ []) ∧ defaultField.deserializer [120] = none ∧
      (to_python (fun _ => none) defaultField (.pystr [120]) = .pystr [120] ∧
        from_db_value (fun _ => none) defaultField (.pystr [120]) = .pystr [120]) :=
  ⟨by decide, rfl,
    claim_C3_failed_decode (fun _ => none) defaultField [120] (by decide) rfl⟩

/-- C5 counterexample: the empty string is not a dict or a list, yet the
write hooks do not pass it to the underlying text-field conversion
unchanged (the identity here, which would keep the empty string): both
convert it to None, so the stored representation for an absent value is
None, not the empty string. -/
theorem claim_C5_counterexample :
    get_prep_value id defaultField (.pystr []) = .pynone ∧
    get_db_prep_save id defaultField (.pystr []) = .pynone ∧
    id (Py.pystr []) = .pystr [] ∧
    Py.pynone ≠ .pystr [] :=
  ⟨rfl, rfl, rfl, by decide⟩

/-- C5 amended: on write, every dict or list is encoded with the field's
serializer by both get_prep_value and get_db_prep_save; the empty string
becomes None (absent); every other value is passed to the underlying
text-field conversion unchanged.  The stored representation is hence
None, a serializer output, or a base-conversion result. -/
theorem claim_C5_write (basePrep baseSave : Py → Py) (f : JSONField)
    (kvs : List (PyStr × Prim)) (xs : List Prim) (v : Py)
    (hcoll : isColl v = false) (hne : eqEmptyString v = false) :
    get_prep_value basePrep f (.pydict kvs) = .pystr (f.serializer (.pydict kvs)) ∧
    get_db_prep_save baseSave f (.pydict kvs) = .pystr (f.serializer (.pydict kvs)) ∧
    get_prep_value basePrep f (.pylist xs) = .pystr (f.serializer (.pylist xs)) ∧
    get_db_prep_save baseSave f (.pylist xs) = .pystr (f.serializer (.pylist xs)) ∧
    get_prep_value basePrep f v = basePrep v ∧
    get_db_prep_save baseSave f v = baseSave v ∧
    get_prep_value basePrep f (.pystr []) = .pynone ∧
    get_db_prep_save baseSave f (.pystr []) = .pynone := by
  refine ⟨rfl, rfl, rfl, rfl, ?_, ?_, rfl, rfl⟩
  · cases v with
    | pystr s =>
      unfold get_prep_value
      rw [hne]
      simp
    | pydict kvs2 => simp [isColl] at hcoll
    | pylist xs2 => simp [isColl] at hcoll
    | pybytes b => rfl
    | pynone => rfl
    | pybool b => rfl
    | pyint n => rfl
    | pyother t => rfl
  · cases v with
    | pystr s =>
      unfold get_db_prep_save
      rw [hne]
      simp
    | pydict kvs2 => simp [isColl] at hcoll
    | pylist xs2 => simp [isColl] at hcoll
    | pybytes b => rfl
    | pynone => rfl
    | pybool b => rfl
    | pyint n => rfl
    | pyother t => rfl

theorem claim_C5_witness :
    isColl (.pyint 5) = false ∧ eqEmptyString (.pyint 5) = false ∧
      (get_prep_value id defaultField (.pydict []) = .pystr (defaultField.serializer (.pydict [])) ∧
        get_db_prep_save id defaultField (.pydict []) = .pystr (defaultField.serializer (.pydict [])) ∧
        get_prep_value id defaultField (.pylist []) = .pystr (defaultField.serializer (.pylist [])) ∧
        get_db_prep_save id defaultField (.pylist []) = .pystr (defaultField.serializer (.pylist [])) ∧
        get_prep_value id defaultField (.pyint 5) = id (Py.pyint 5) ∧
        get_db_prep_save id defaultField (.pyint 5) = id (Py.pyint 5) ∧
        get_prep_value id defaultField (.pystr []) = .pynone ∧
        get_db_prep_save id defaultField (.pystr []) = .pynone) :=
  ⟨rfl, rfl, claim_C5_write id id defaultField [] [] (.pyint 5) rfl rfl⟩

/-- C6 counterexample: for a field with no explicit default, get_default
returns the empty string — not the raw structured default (such as the
empty dict) that the claim describes. -/
theorem claim_C6_counterexample :
    defaultField.hasDefault = false ∧
    get_default defaultField = .pystr [] ∧
    Py.pystr [] ≠ .pydict [] :=
  ⟨rfl, rfl, by decide⟩

/-- C6 amended: get_default bypasses the base field's stringification —
with a configured plain default it returns that raw value, with a
configured callable default it returns the result of calling it, and
with no configured default it returns the empty string (never a
JSON-encoded string of the default). -/
theorem claim_C6_get_default (f : JSONField) (v : Py) (g : Unit → Py) :
    get_default { f with hasDefault := true, default := .inl v } = v ∧
    get_default { f with hasDefault := true, default := .inr g } = g () ∧
    get_default { f with hasDefault := false } = .pystr [] :=
  ⟨rfl, rfl, rfl⟩

/-- C7: value_from_object renders the attribute value through the
serializer even when it is None — except on a nullable field holding
None, where None is returned and the serializer is not invoked. -/
theorem claim_C7_value_from_object (f : JSONField) (v : Py) (hv : v ≠ .pynone) :
    value_from_object { f with null := false } v = .pystr (f.serializer v) ∧
    value_from_object { f with null := false } .pynone = .pystr (f.serializer .pynone) ∧
    value_from_object { f with null := true } .pynone = .pynone ∧
    value_from_object_trace { f with null := true } .pynone = (.pynone, []) ∧
    value_from_object { f with null := true } v = .pystr (f.serializer v) := by
  refine ⟨?_, rfl, rfl, rfl, ?_⟩
  · unfold value_from_object
    rw [if_neg]
    rintro ⟨h1, _⟩
    simp at h1
  · unfold value_from_object
    rw [if_neg]
    rintro ⟨_, h2⟩
    exact hv h2

theorem claim_C7_witness :
    (Py.pyint 3 ≠ .pynone) ∧
      (value_from_object { defaultField with null := false } (.pyint 3) =
          .pystr (defaultField.serializer (.pyint 3)) ∧
        value_from_object { defaultField with null := false } .pynone =
          .pystr (defaultField.serializer .pynone) ∧
        value_from_object { defaultField with null := true } .pynone = .pynone ∧
        value_from_object_trace { defaultField with null := true } .pynone = (.pynone, []) ∧
        value_from_object { defaultField with null := true } (.pyint 3) =
          .pystr (defaultField.serializer (.pyint 3))) :=
  ⟨by decide, claim_C7_value_from_object defaultField (.pyint 3) (by decide)⟩

/-- C10: to_python on a bytes value decodes it as UTF-8 and feeds the
result to the deserializer, falling back to the bytes unchanged when
either step fails with a ValueError; on a value that is neither str nor
bytes it returns the value unchanged without invoking the
deserializer. -/
theorem claim_C10_nonstring_inputs (utf8 : List Nat → Option PyStr) (f : JSONField)
    (b : List Nat) (v : Py) (hs : isStr v = false) (hb : isBytes v = false) :
    to_python utf8 f (.pybytes b) =
      (match utf8 b with
       | some s =>
         match f.deserializer s with
         | some w => w
         | none => .pybytes b
       | none => .pybytes b) ∧
    to_python_trace utf8 f v = (v, []) := by
  refine ⟨rfl, ?_⟩
  cases v with
  | pystr s => simp [isStr] at hs
  | pybytes b2 => simp [isBytes] at hb
  | pydict kvs => rfl
  | pylist xs => rfl
  | pynone => rfl
  | pybool b2 => rfl
  | pyint n => rfl
  | pyother t => rfl

theorem claim_C10_witness :
    isStr (.pydict []) = false ∧ isBytes (.pydict []) = false ∧
      (to_python (fun bs => some bs) defaultField (.pybytes [53]) =
        (match (fun (bs : List Nat) => some bs) [53] with
         | some s =>
           match defaultField.deserializer s with
           | some w => w
           | none => Py.pybytes [53]
         | none => Py.pybytes [53]) ∧
      to_python_trace (fun bs => some bs) defaultField (.pydict []) = (.pydict [], [])) :=
  ⟨rfl, rfl, claim_C10_nonstring_inputs (fun bs => some bs) defaultField [53] (.pydict []) rfl rfl⟩

theorem find?_none_filter (p : Row → Bool) :
    ∀ l : List Row, l.find? p = none → l.filter p = [] := by
  intro l
  induction l with
  | nil => intro _; rfl
  | cons r t ih =>
    intro h
    cases hp : p r with
    | true => simp [List.find?, hp] at h
    | false =>
      rw [List.find?] at h
      rw [hp] at h
      have h2 := ih h
      simp [List.filter_cons, hp, h2]

theorem find?_append_none (p : Row → Bool) :
    ∀ l1 l2 : List Row, l1.find? p = none → (l1 ++ l2).find? p = l2.find? p := by
  intro l1 l2
  induction l1 with
  | nil => intro _; rfl
  | cons r t ih =>
    intro h
    cases hp : p r with
    | true => simp [List.find?, hp] at h
    | false =>
      rw [List.find?] at h
      rw [hp] at h
      rw [List.cons_append, List.find?, hp]
      exact ih h

/-- C1: on a record with no existing related row (so nothing is cached
for it), the first read creates exactly one related row, populated only
with the back reference (the extra field keeps its default); it returns
the instance produced by re-running the standard lookup — an object with
identity s.nextOid + 1, distinct from the in-memory object the creation
step built (identity s.nextOid) — and caches it; a second read returns
the identical cached instance and changes nothing. -/
theorem claim_C1_first_access (inst : Nat) (s : DState)
    (hrow : s.rows.find? (isFor inst) = none)
    (hcache : s.cache = none) :
    autoGet inst s =
      .ok (⟨s.nextOid + 1, inst, extraDefault⟩,
        ⟨s.rows ++ [⟨inst, extraDefault⟩], some ⟨s.nextOid + 1, inst, extraDefault⟩,
          s.nextOid + 2⟩) ∧
    (s.rows ++ ([⟨inst, extraDefault⟩] : List Row)).filter (isFor inst) =
      ([⟨inst, extraDefault⟩] : List Row) ∧
    s.nextOid + 1 ≠ s.nextOid ∧
    autoGet inst
      ⟨s.rows ++ [⟨inst, extraDefault⟩], some ⟨s.nextOid + 1, inst, extraDefault⟩,
        s.nextOid + 2⟩ =
      .ok (⟨s.nextOid + 1, inst, extraDefault⟩,
        ⟨s.rows ++ [⟨inst, extraDefault⟩], some ⟨s.nextOid + 1, inst, extraDefault⟩,
          s.nextOid + 2⟩) := by
  have hfind2 : List.find? (isFor inst) (s.rows ++ [⟨inst, extraDefault⟩]) =
      some ⟨inst, extraDefault⟩ := by
    rw [find?_append_none _ _ _ hrow]
    simp [List.find?, isFor]
  refine ⟨?_, ?_, by omega, ?_⟩
  · unfold autoGet autoGetWith superGet get_or_create
    rw [hcache, hrow]
    dsimp only
    rw [hfind2]
  · rw [List.filter_append, find?_none_filter _ _ hrow]
    simp [List.filter, isFor]
  · unfold autoGet autoGetWith superGet
    dsimp only

theorem claim_C1_witness :
    ([] : List Row).find? (isFor 7) = none ∧
      (autoGet 7 ⟨[], none, 0⟩ =
          .ok (⟨1, 7, extraDefault⟩, ⟨[⟨7, extraDefault⟩], some ⟨1, 7, extraDefault⟩, 2⟩) ∧
        ([⟨7, extraDefault⟩] : List Row).filter (isFor 7) = ([⟨7, extraDefault⟩] : List Row) ∧
        (1 : Nat) ≠ 0 ∧
        autoGet 7 ⟨[⟨7, extraDefault⟩], some ⟨1, 7, extraDefault⟩, 2⟩ =
          .ok (⟨1, 7, extraDefault⟩, ⟨[⟨7, extraDefault⟩], some ⟨1, 7, extraDefault⟩, 2⟩)) :=
  ⟨rfl, claim_C1_first_access 7 ⟨[], none, 0⟩ rfl rfl⟩

/-- C8: a failure of the creation step propagates unchanged to the
caller; a lookup failure other than the related model's DoesNotExist
propagates unchanged (only DoesNotExist is caught); and on every run the
creation step is invoked at most once — there is no retry loop. -/
theorem claim_C8_creation_failure
    (lookup lookup2 : Nat → DState → Except Exc (Obj × DState))
    (goc : Nat → DState → Except Exc ((Obj × Bool) × DState))
    (inst : Nat) (s : DState) (e e2 : Exc)
    (hmiss : lookup inst s = .error .doesNotExist)
    (hfail : goc inst s = .error e)
    (hne : e2 ≠ .doesNotExist)
    (h2 : lookup2 inst s = .error e2) :
    autoGetWith lookup goc inst s = .error e ∧
    autoGetWith lookup2 goc inst s = .error e2 ∧
    (∀ lk gc i st, (autoGetCount lk gc i st).2 ≤ 1) := by
  refine ⟨?_, ?_, ?_⟩
  · unfold autoGetWith
    rw [hmiss]
    dsimp only
    rw [hfail]
  · unfold autoGetWith
    rw [h2]
    cases e2 with
    | doesNotExist => exact absurd rfl hne
    | integrityError => rfl
    | other code => rfl
  · intro lk gc i st
    unfold autoGetCount
    cases hl : lk i st with
    | ok os => simp
    | error ex =>
      cases ex with
      | doesNotExist => simp
      | integrityError => simp
      | other code => simp

theorem claim_C8_witness :
    ((fun (_ : Nat) (_ : DState) => (.error .doesNotExist : Except Exc (Obj × DState))) 0
        ⟨[], none, 0⟩ = .error .doesNotExist) ∧
    ((fun (_ : Nat) (_ : DState) =>
        (.error .integrityError : Except Exc ((Obj × Bool) × DState))) 0 ⟨[], none, 0⟩ =
      .error .integrityError) ∧
    (Exc.other 7 ≠ .doesNotExist) ∧
      (autoGetWith (fun _ _ => .error .doesNotExist) (fun _ _ => .error .integrityError) 0
          ⟨[], none, 0⟩ = .error .integrityError ∧
        autoGetWith (fun _ _ => .error (.other 7)) (fun _ _ => .error .integrityError) 0
          ⟨[], none, 0⟩ = .error (.other 7) ∧
        (∀ lk gc i st, (autoGetCount lk gc i st).2 ≤ 1)) :=
  ⟨rfl, rfl, by decide,
    claim_C8_creation_failure _ _ _ 0 ⟨[], none, 0⟩ .integrityError (.other 7)
      rfl rfl (by decide) rfl⟩

theorem raceInv_step {c c' : Cfg} (hinv : RaceInv c) (hstep : RaceStep c c') :
    RaceInv c' := by
  obtain ⟨h1, h2, h3⟩ := hinv
  cases hstep with
  | found1 hpc hr => exact ⟨h1, fun _ => hr, h3⟩
  | miss1 hpc hr =>
    refine ⟨h1, fun h => ?_, h3⟩
    rcases h with h | h <;> simp_all
  | goc1 hpc =>
    refine ⟨by dsimp only; split <;> omega, fun _ => by dsimp only; split <;> omega,
      fun h => ?_⟩
    have := h3 h
    dsimp only
    split <;> omega
  | relook1 hpc hr => exact ⟨h1, fun _ => hr, h3⟩
  | found2 hpc hr => exact ⟨h1, h2, fun _ => hr⟩
  | miss2 hpc hr =>
    refine ⟨h1, h2, fun h => ?_⟩
    rcases h with h | h <;> simp_all
  | goc2 hpc =>
    refine ⟨by dsimp only; split <;> omega, fun h => ?_, fun _ => by dsimp only; split <;> omega⟩
    have := h2 h
    dsimp only
    split <;> omega
  | relook2 hpc hr => exact ⟨h1, h2, fun _ => hr⟩

theorem raceInv_reachable {c0 c : Cfg}
    (hreach : Relation.ReflTransGen RaceStep c0 c) (h0 : RaceInv c0) : RaceInv c := by
  induction hreach with
  | refl => exact h0
  | tail _ hstep ih => exact raceInv_step ih hstep

/-- C9: starting from no related row with both readers about to make
their first access, every interleaving of the two readers' atomic steps
that runs both to completion leaves exactly one related row: the
create-if-absent step is idempotent, so the race between two readers
that both observe the row absent cannot produce duplicates. -/
theorem claim_C9_race_single_row (c : Cfg)
    (hreach : Relation.ReflTransGen RaceStep ⟨0, .start, .start⟩ c)
    (h1 : c.pc1 = .done) (h2 : c.pc2 = .done) : c.recs = 1 := by
  have hinv := raceInv_reachable hreach ⟨by decide, by decide, by decide⟩
  have hle := hinv.1
  have hge1 := hinv.2.1 (Or.inr h1)
  have hge2 := hinv.2.2 (Or.inr h2)
  omega

theorem claim_C9_witness :
    Relation.ReflTransGen RaceStep ⟨0, .start, .start⟩ ⟨1, .done, .done⟩ ∧
      (Cfg.mk 1 .done .done).pc1 = .done ∧ (Cfg.mk 1 .done .done).pc2 = .done ∧
      (Cfg.mk 1 .done .done).recs = 1 := by
  have s1 : RaceStep ⟨0, .start, .start⟩ ⟨0, .missed, .start⟩ :=
    RaceStep.miss1 ⟨0, .start, .start⟩ rfl rfl
  have s2 : RaceStep ⟨0, .missed, .start⟩ ⟨1, .created, .start⟩ :=
    RaceStep.goc1 ⟨0, .missed, .start⟩ rfl
  have s3 : RaceStep ⟨1, .created, .start⟩ ⟨1, .done, .start⟩ :=
    RaceStep.relook1 ⟨1, .created, .start⟩ rfl (by decide)
  have s4 : RaceStep ⟨1, .done, .start⟩ ⟨1, .done, .done⟩ :=
    RaceStep.found2 ⟨1, .done, .start⟩ rfl (by decide)
  have htrace : Relation.ReflTransGen RaceStep ⟨0, .start, .start⟩ ⟨1, .done, .done⟩ :=
    .tail (.tail (.tail (.tail .refl s1) s2) s3) s4
  exact ⟨htrace, rfl, rfl, claim_C9_race_single_row _ htrace rfl rfl⟩
